import Mathlib

/-
Verification of the Simple-Image_crawler repository (src/main.go) against its
natural-language specification.  The Go program is shallowly embedded: pure
helpers (isImageURL, getFilenameFromURL, parseHTML) become Lean functions,
the stateful downloadImage becomes explicit filesystem-state passing with
oracles for the external HTTP/OS capabilities, the worker body becomes a pure
item-handling function, and the concurrent Start/worker protocol becomes a
small-step transition system over an explicit system state.
-/

namespace ImageCrawler

/-- Constants from src/main.go lines 21-25. -/
def MaxDepth : Nat := 3

/-- Number of workers launched by Start (src/main.go line 23). -/
def MaxWorkers : Nat := 10

/-- Output directory for downloads (src/main.go line 24). -/
def DownloadDir : String := "images"

/-- Capacity of the urlChan channel (src/main.go line 38). -/
def chanCapacity : Nat := 100

/-! ## isImageURL (src/main.go lines 45-48)

The source tests `url` against the Go regexp `\.(jpg|jpeg|png|gif|bmp)$`
with `MatchString`.  `goMatchString` below is the semantics of that call:
some substring of the input, anchored at the end by `$`, matches
`\.(jpg|jpeg|png|gif|bmp)`.  The executable `isImageURL` decides it by
suffix comparison; the equivalence is proved in the C5 theorem. -/

/-- The five alternatives of the regexp alternation `(jpg|jpeg|png|gif|bmp)`. -/
def imgSuffixWords : List (List Char) :=
  [['j', 'p', 'g'], ['j', 'p', 'e', 'g'], ['p', 'n', 'g'],
   ['g', 'i', 'f'], ['b', 'm', 'p']]

/-- A character list matches the regexp body `\.(jpg|jpeg|png|gif|bmp)`. -/
def regexCore (b : List Char) : Prop :=
  ∃ w ∈ imgSuffixWords, b = '.' :: w

/-- Semantics of Go `regexp.MatchString` for the end-anchored pattern
`\.(jpg|jpeg|png|gif|bmp)$`: some split of the input has a second half that
matches the body and ends the string. -/
def goMatchString (s : String) : Prop :=
  ∃ a b, s.data = a ++ b ∧ regexCore b

/-- Executable form of the regexp test of src/main.go line 47. -/
def isImageURL (url : String) : Bool :=
  imgSuffixWords.any (fun w => List.isSuffixOf ('.' :: w) url.data)

/-! ## getFilenameFromURL (src/main.go lines 50-52)

The source returns `filepath.Base(url)`.  `filepathBase` transcribes the Go
standard library function `path/filepath.Base` on unix: empty input gives ".",
trailing slashes are dropped, everything up to the final slash is dropped,
and an input of only slashes gives "/". -/

/-- Drop trailing '/' characters, as filepath.Base does first. -/
def stripTrailingSlashes (l : List Char) : List Char :=
  (l.reverse.dropWhile (fun c => c = '/')).reverse

/-- Keep the characters after the last '/' (the whole list when none). -/
def lastSegment (l : List Char) : List Char :=
  (l.reverse.takeWhile (fun c => c ≠ '/')).reverse

/-- Transcription of Go filepath.Base (unix, no volume names). -/
def filepathBase (s : String) : String :=
  if s.data = [] then "." else
  let l := stripTrailingSlashes s.data
  let r := lastSegment l
  if r = [] then "/" else String.mk r

/-- getFilenameFromURL from src/main.go lines 50-52. -/
def getFilenameFromURL (url : String) : String :=
  filepathBase url

/-- filepath.Join of the output directory and a base name as used on
src/main.go line 66 (no cleaning is needed for these arguments). -/
def joinPath (dir name : String) : String :=
  dir ++ "/" ++ name

/-! ## parseHTML (src/main.go lines 83-113)

The external tokenizer (golang.org/x/net/html) is modelled at its interface:
a finite stream of token events.  `tokenizer.Next()` yields a token type;
the loop breaks on the first ErrorToken (EOF or malformed markup) and
otherwise inspects StartTagToken / SelfClosingTagToken, reading the tag
name of the token (`token.Data`) and its attribute list (`token.Attr`). -/

/-- Token kinds distinguished by the loop: the two kinds it inspects, and
everything else (end tags, text, comments, doctype), which it skips. -/
inductive TokKind where
  | startTag
  | selfClosingTag
  | other
deriving DecidableEq

/-- One non-error token as produced by the tokenizer: kind, tag name,
attribute key/value list in document order. -/
structure Tok where
  kind : TokKind
  data : String
  attrs : List (String × String)
deriving DecidableEq

/-- One tokenizer event: a token, or the terminal ErrorToken. -/
inductive TEvent where
  | tok (t : Tok)
  | err
deriving DecidableEq

/-- The href attribute values of a token, in order (loop at lines 97-101). -/
def hrefVals (t : Tok) : List String :=
  t.attrs.filterMap (fun p => if p.1 = "href" then some p.2 else none)

/-- The src attribute values of a token that pass isImageURL, in order
(loop at lines 103-107). -/
def srcImgVals (t : Tok) : List String :=
  t.attrs.filterMap
    (fun p => if p.1 = "src" ∧ isImageURL p.2 = true then some p.2 else none)

/-- Does the loop body look inside this token at all? -/
def tagLike (k : TokKind) : Bool :=
  k = TokKind.startTag ∨ k = TokKind.selfClosingTag

/-- parseHTML from src/main.go lines 83-113: walk the token stream, stop at
the first ErrorToken, collect href values of a-tags as links and
image-classified src values of img-tags as images, both in document order.
(The baseURL and depth parameters of the Go function are unused by it and
omitted.) -/
def parseHTML : List TEvent → List String × List String
  | [] => ([], [])
  | TEvent.err :: _ => ([], [])
  | TEvent.tok t :: rest =>
    let r := parseHTML rest
    if tagLike t.kind then
      if t.data = "a" then (hrefVals t ++ r.1, r.2)
      else if t.data = "img" then (r.1, srcImgVals t ++ r.2)
      else r
    else r

/-- The events before the first ErrorToken. -/
def beforeErr (evs : List TEvent) : List TEvent :=
  evs.takeWhile (fun e => e ≠ TEvent.err)

/-- The links contributed by one event (nothing for err; the spec-level
per-tag view used to state document-order emission). -/
def linksOf (e : TEvent) : List String :=
  match e with
  | TEvent.err => []
  | TEvent.tok t => if tagLike t.kind ∧ t.data = "a" then hrefVals t else []

/-- The images contributed by one event. -/
def imagesOf (e : TEvent) : List String :=
  match e with
  | TEvent.err => []
  | TEvent.tok t =>
    if tagLike t.kind ∧ t.data = "img" then srcImgVals t else []

/-! ## downloadImage (src/main.go lines 54-81)

External capabilities are oracles: the HTTP GET for the image body, the
MkdirAll / Create / Copy outcomes.  The filesystem is explicit state: a set
of directories and an association list from filename to byte content.
`io.Copy` failure is modelled by the number of bytes written before the
failure, exposing that `os.Create` truncates before the copy runs. -/

/-- Errors downloadImage can return, one per early-return site. -/
inductive DlErr where
  | fetchFailed
  | mkdirFailed
  | createFailed
  | copyFailed
deriving DecidableEq

/-- Outcomes of the external calls made by one downloadImage invocation. -/
structure DlOracle where
  fetch : String → Option (List Nat)
  mkdirOk : Bool
  createOk : Bool
  copyFail : Option Nat

/-- Explicit filesystem state. -/
structure FS where
  dirs : List String
  files : List (String × List Nat)
deriving DecidableEq

/-- Write (create or overwrite) a file in the association list. -/
def setFile : List (String × List Nat) → String → List Nat → List (String × List Nat)
  | [], n, c => [(n, c)]
  | (m, d) :: rest, n, c =>
    if m = n then (n, c) :: rest else (m, d) :: setFile rest n c

/-- Look a file up. -/
def lookupFile : List (String × List Nat) → String → Option (List Nat)
  | [], _ => none
  | (m, d) :: rest, n => if m = n then some d else lookupFile rest n

/-- MkdirAll: idempotent directory creation. -/
def ensureDir (dirs : List String) (d : String) : List String :=
  if d ∈ dirs then dirs else d :: dirs

/-- downloadImage from src/main.go lines 54-81, over the oracle and the
filesystem state.  Control flow follows the source exactly: fetch, mkdir,
derive filename, create (truncate), copy. -/
def downloadImage (o : DlOracle) (fs : FS) (imgURL : String) :
    Except DlErr Unit × FS :=
  match o.fetch imgURL with
  | none => (Except.error DlErr.fetchFailed, fs)
  | some body =>
    if o.mkdirOk = false then (Except.error DlErr.mkdirFailed, fs)
    else
      let fs1 : FS := ⟨ensureDir fs.dirs DownloadDir, fs.files⟩
      let filename := joinPath DownloadDir (getFilenameFromURL imgURL)
      if o.createOk = false then (Except.error DlErr.createFailed, fs1)
      else
        let fs2 : FS := ⟨fs1.dirs, setFile fs1.files filename []⟩
        match o.copyFail with
        | some k =>
          (Except.error DlErr.copyFailed,
           ⟨fs2.dirs, setFile fs2.files filename (body.take k)⟩)
        | none => (Except.ok (), ⟨fs2.dirs, setFile fs2.files filename body⟩)

/-! ## The worker body (src/main.go lines 115-151)

One iteration of `for imgURL := range c.urlChan` is the pure function
`handleItem`.  The fetch of a page is an oracle `page` returning the token
stream of the body (None = fetch error); downloads are summarised by the
URLs passed to downloadImage and an oracle `dlOk` saying which succeed (the
filesystem effects of downloadImage are analysed separately above).  The
record also reports which observable actions the iteration performed, so
that absence of a fetch or claim can be stated. -/

/-- A work item of the urlChan channel (struct ImageURL, lines 16-19). -/
structure WorkItem where
  url : String
  depth : Nat
deriving DecidableEq

/-- The visited-set claim of src/main.go lines 123-129: one critical section
that checks membership and inserts.  Returns (claimed?, new set). -/
def tryClaim (visited : List String) (url : String) : Bool × List String :=
  if url ∈ visited then (false, visited) else (true, url :: visited)

/-- Result of one loop iteration of the worker. -/
structure HandleRes where
  visited : List String
  pushes : List WorkItem
  claimAttempted : Bool
  fetchCalled : Bool
  fetchErrLogged : Bool
  downloads : List String
  dlErrLogged : List String
deriving DecidableEq

/-- One iteration of the worker loop, src/main.go lines 118-150: depth gate,
visited claim, page fetch, parseHTML, sequential downloads, link pushes. -/
def handleItem (page : String → Option (List TEvent)) (dlOk : String → Bool)
    (visited : List String) (it : WorkItem) : HandleRes :=
  if it.depth > MaxDepth then
    ⟨visited, [], false, false, false, [], []⟩
  else
    let c := tryClaim visited it.url
    if c.1 = false then ⟨c.2, [], true, false, false, [], []⟩
    else
      match page it.url with
      | none => ⟨c.2, [], true, true, true, [], []⟩
      | some body =>
        let r := parseHTML body
        ⟨c.2, r.1.map (fun l => WorkItem.mk l (it.depth + 1)), true, true,
         false, r.2, r.2.filter (fun i => dlOk i = false)⟩

/-- A worker consuming a list of items in sequence, threading the visited
set; the loop of src/main.go line 118 never exits early. -/
def runWorker (page : String → Option (List TEvent)) (dlOk : String → Bool) :
    List String → List WorkItem → List HandleRes
  | _, [] => []
  | v, it :: rest =>
    let r := handleItem page dlOk v it
    r :: runWorker page dlOk r.visited rest

/-- All downloadImage calls made over a run, in order, one per discovery. -/
def downloadsOf (rs : List HandleRes) : List String :=
  (rs.map HandleRes.downloads).flatten

/-! ## The Start / worker concurrency protocol (src/main.go lines 115-163)

A small-step transition system over the whole process: the bounded channel
(queue contents plus closed flag), the shared visited set, the ten worker
goroutines, the WaitGroup counter, and the position of the Start goroutine.
Transitions are exactly the atomic steps the Go runtime offers this program:
a channel receive (which runs one loop body via handleItem), a channel send
of one pending link, a worker exiting its range loop (possible only once the
channel is closed and drained, whereupon the deferred wg.Done runs),
wg.Wait returning (only at counter zero), and close(urlChan) followed by
Start returning. -/

/-- Position of the Start goroutine (src/main.go lines 153-163). -/
inductive Coord where
  | seeding
  | waiting
  | closing
  | returned
deriving DecidableEq

/-- State of one worker goroutine. -/
inductive WStat where
  | idle
  | pushing (pending : List WorkItem)
  | done
deriving DecidableEq

/-- Global state of the running program. -/
structure Sys where
  queue : List WorkItem
  closed : Bool
  visited : List String
  workers : List WStat
  wgCount : Nat
  coord : Coord
deriving DecidableEq

/-- State right after the `go c.worker()` loop of Start: empty channel, all
workers blocked receiving, WaitGroup at MaxWorkers, seed not yet sent. -/
def initSys : Sys :=
  ⟨[], false, [], List.replicate MaxWorkers WStat.idle, MaxWorkers,
   Coord.seeding⟩

/-- One atomic step of the program, for a fixed site oracle and seed URL. -/
inductive Step (page : String → Option (List TEvent)) (dlOk : String → Bool)
    (seed : String) : Sys → Sys → Prop where
  | seedSend (s : Sys)
      (h1 : s.coord = Coord.seeding) (h2 : s.queue.length < chanCapacity) :
      Step page dlOk seed s
        { s with queue := s.queue ++ [WorkItem.mk seed 1],
                 coord := Coord.waiting }
  | recv (s : Sys) (w : Nat) (it : WorkItem) (rest : List WorkItem)
      (r : HandleRes)
      (hw : s.workers.get? w = some WStat.idle) (hq : s.queue = it :: rest)
      (hr : r = handleItem page dlOk s.visited it) :
      Step page dlOk seed s
        { s with queue := rest, visited := r.visited,
                 workers := s.workers.set w (WStat.pushing r.pushes) }
  | send (s : Sys) (w : Nat) (i : WorkItem) (ps : List WorkItem)
      (hw : s.workers.get? w = some (WStat.pushing (i :: ps)))
      (hcap : s.queue.length < chanCapacity) :
      Step page dlOk seed s
        { s with queue := s.queue ++ [i],
                 workers := s.workers.set w (WStat.pushing ps) }
  | finishItem (s : Sys) (w : Nat)
      (hw : s.workers.get? w = some (WStat.pushing [])) :
      Step page dlOk seed s { s with workers := s.workers.set w WStat.idle }
  | exitWorker (s : Sys) (w : Nat)
      (hw : s.workers.get? w = some WStat.idle)
      (hc : s.closed = true) (hq : s.queue = []) :
      Step page dlOk seed s
        { s with workers := s.workers.set w WStat.done,
                 wgCount := s.wgCount - 1 }
  | waitDone (s : Sys) (h1 : s.coord = Coord.waiting) (h2 : s.wgCount = 0) :
      Step page dlOk seed s { s with coord := Coord.closing }
  | closeChan (s : Sys) (h1 : s.coord = Coord.closing) :
      Step page dlOk seed s { s with closed := true, coord := Coord.returned }

/-- Reachability from the initial state. -/
inductive Reach (page : String → Option (List TEvent)) (dlOk : String → Bool)
    (seed : String) : Sys → Prop where
  | init : Reach page dlOk seed initSys
  | step (s s' : Sys) : Reach page dlOk seed s →
      Step page dlOk seed s s' → Reach page dlOk seed s'

/-- The inductive invariant behind the non-termination of Start: the channel
is never closed, the WaitGroup counter never moves, and the Start goroutine
never gets past wg.Wait. -/
def StuckInv (s : Sys) : Prop :=
  s.closed = false ∧ s.wgCount = MaxWorkers ∧
    (s.coord = Coord.seeding ∨ s.coord = Coord.waiting)

/-! ## Sequences of visited-set claims

For claim C2 the visited-set operation is run over an arbitrary sequence of
URLs (the URLs of the work items that reach the claim, in the serialization
order imposed by the mutex), recording each outcome. -/

/-- Run a sequence of claims, recording (url, outcome) pairs in order. -/
def claimResults : List String → List String → List (String × Bool)
  | _, [] => []
  | v, u :: rest =>
    let c := tryClaim v u
    (u, c.1) :: claimResults c.2 rest

/-- How many claims of the given URL returned true. -/
def trueCount (u : String) (rs : List (String × Bool)) : Nat :=
  (rs.filter (fun p => p.1 = u ∧ p.2 = true)).length

/-! ## Concrete fixtures used by witness theorems -/

/-- A page body holding one link (an a-tag with href "l2"). -/
def bodyW : List TEvent :=
  [TEvent.tok (Tok.mk TokKind.startTag "a" [("href", "l2")])]

/-- A site where only page "s" exists, containing bodyW. -/
def pgW : String → Option (List TEvent) := fun u =>
  if u = "s" then some bodyW else none

/-- A page body holding one image reference (img with src "i.png"). -/
def bodyI : List TEvent :=
  [TEvent.tok (Tok.mk TokKind.selfClosingTag "img" [("src", "i.png")])]

/-- A site with two distinct pages "p" and "q", both showing i.png. -/
def pgI : String → Option (List TEvent) := fun u =>
  if u = "p" ∨ u = "q" then some bodyI else none

theorem stuckInv_init : StuckInv initSys := by
  refine ⟨rfl, rfl, Or.inl rfl⟩

theorem stuckInv_step {page dlOk seed} {s s' : Sys} (hs : StuckInv s)
    (h : Step page dlOk seed s s') : StuckInv s' := by
  obtain ⟨hc, hw, hco⟩ := hs
  cases h with
  | seedSend h1 h2 => exact ⟨hc, hw, Or.inr rfl⟩
  | recv w it rest r hwk hq hr => exact ⟨hc, hw, hco⟩
  | send w i ps hwk hcap => exact ⟨hc, hw, hco⟩
  | finishItem w hwk => exact ⟨hc, hw, hco⟩
  | exitWorker w hwk hcl hq => rw [hc] at hcl; cases hcl
  | waitDone h1 h2 =>
      rw [hw] at h2
      exact absurd h2 (by decide)
  | closeChan h1 =>
      rcases hco with h | h <;> rw [h] at h1 <;> cases h1

theorem stuckInv_reach {page dlOk seed} {s : Sys}
    (h : Reach page dlOk seed s) : StuckInv s := by
  induction h with
  | init => exact stuckInv_init
  | step s s' _ hstep ih => exact stuckInv_step ih hstep

/-! ## Helper lemmas about handleItem -/

theorem handleItem_overdepth (page : String → Option (List TEvent))
    (dlOk : String → Bool) (visited : List String) (it : WorkItem)
    (h : it.depth > MaxDepth) :
    handleItem page dlOk visited it =
      ⟨visited, [], false, false, false, [], []⟩ := by
  unfold handleItem
  rw [if_pos h]

theorem handleItem_dup (page : String → Option (List TEvent))
    (dlOk : String → Bool) (visited : List String) (it : WorkItem)
    (h : ¬ it.depth > MaxDepth) (hv : it.url ∈ visited) :
    handleItem page dlOk visited it =
      ⟨visited, [], true, false, false, [], []⟩ := by
  unfold handleItem tryClaim
  rw [if_neg h]
  simp [hv]

theorem handleItem_fetchErr (page : String → Option (List TEvent))
    (dlOk : String → Bool) (visited : List String) (it : WorkItem)
    (h : ¬ it.depth > MaxDepth) (hv : it.url ∉ visited)
    (hp : page it.url = none) :
    handleItem page dlOk visited it =
      ⟨it.url :: visited, [], true, true, true, [], []⟩ := by
  unfold handleItem tryClaim
  rw [if_neg h]
  simp [hv, hp]

theorem handleItem_processed (page : String → Option (List TEvent))
    (dlOk : String → Bool) (visited : List String) (it : WorkItem)
    (body : List TEvent)
    (h : ¬ it.depth > MaxDepth) (hv : it.url ∉ visited)
    (hp : page it.url = some body) :
    handleItem page dlOk visited it =
      ⟨it.url :: visited,
       (parseHTML body).1.map (fun l => WorkItem.mk l (it.depth + 1)),
       true, true, false, (parseHTML body).2,
       (parseHTML body).2.filter (fun i => dlOk i = false)⟩ := by
  unfold handleItem tryClaim
  rw [if_neg h]
  simp [hv, hp]

/-! ## Claim theorems -/

/-- Claim C1.  The code does not satisfy the termination claim: for every
site oracle (hence every finite site graph) and every seed, in every
reachable state of the Start/worker protocol the channel is still open and
Start has not returned.  In Start, wg.Wait blocks until the workers call
wg.Done, the workers call wg.Done only after their range loop ends, the
range loop ends only once urlChan is closed, and urlChan is closed only
after wg.Wait returns — so the "returned" configuration is unreachable and
the crawl deadlocks instead of reaching a closed+drained state. -/
theorem start_never_returns (page : String → Option (List TEvent))
    (dlOk : String → Bool) (seed : String) (s : Sys)
    (h : Reach page dlOk seed s) :
    s.closed = false ∧ s.coord ≠ Coord.returned := by
  obtain ⟨hc, _, hco⟩ := stuckInv_reach h
  refine ⟨hc, ?_⟩
  rcases hco with h1 | h1 <;> rw [h1] <;> intro h2 <;> cases h2

theorem start_never_returns_witness :
    initSys.closed = false ∧ initSys.coord ≠ Coord.returned :=
  start_never_returns (fun _ => none) (fun _ => true) "https://example.com"
    initSys Reach.init

/-- Claim C3.  A work item whose depth exceeds MaxDepth is discarded whole:
the iteration records no fetch call and no claim attempt, pushes nothing,
downloads nothing, and leaves the visited set unchanged. -/
theorem overdepth_item_discarded (page : String → Option (List TEvent))
    (dlOk : String → Bool) (visited : List String) (it : WorkItem)
    (h : it.depth > MaxDepth) :
    handleItem page dlOk visited it =
      ⟨visited, [], false, false, false, [], []⟩ :=
  handleItem_overdepth page dlOk visited it h

theorem overdepth_item_discarded_witness :
    (4 > MaxDepth) ∧
      handleItem (fun _ => none) (fun _ => true) ["v"] (WorkItem.mk "u" 4) =
        ⟨["v"], [], false, false, false, [], []⟩ :=
  ⟨by decide,
   overdepth_item_discarded (fun _ => none) (fun _ => true) ["v"]
     (WorkItem.mk "u" 4) (by decide)⟩

/-- Claim C4.  A processed page at depth d pushes every extracted link at
depth d+1, with no depth condition on the pushed item (in particular when
d = MaxDepth, so d+1 > MaxDepth); filtering happens only when such an item
is later popped, where the worker drops it without fetching. -/
theorem links_pushed_unfiltered (page : String → Option (List TEvent))
    (dlOk : String → Bool) (visited : List String) (it : WorkItem)
    (body : List TEvent)
    (h : ¬ it.depth > MaxDepth) (hv : it.url ∉ visited)
    (hp : page it.url = some body) :
    (handleItem page dlOk visited it).pushes
        = (parseHTML body).1.map (fun l => WorkItem.mk l (it.depth + 1)) ∧
      ∀ (page2 : String → Option (List TEvent)) (dlOk2 : String → Bool)
        (v2 : List String) (l : String),
        it.depth + 1 > MaxDepth →
          handleItem page2 dlOk2 v2 (WorkItem.mk l (it.depth + 1)) =
            ⟨v2, [], false, false, false, [], []⟩ := by
  constructor
  · rw [handleItem_processed page dlOk visited it body h hv hp]
  · intro page2 dlOk2 v2 l hover
    exact handleItem_overdepth page2 dlOk2 v2 (WorkItem.mk l (it.depth + 1))
      hover

theorem links_pushed_unfiltered_witness :
    (¬ (WorkItem.mk "s" 3).depth > MaxDepth) ∧
      (handleItem pgW (fun _ => true) [] (WorkItem.mk "s" 3)).pushes
        = [WorkItem.mk "l2" 4] ∧
      handleItem pgW (fun _ => true) [] (WorkItem.mk "l2" 4) =
        ⟨[], [], false, false, false, [], []⟩ := by
  have h := links_pushed_unfiltered pgW (fun _ => true) [] (WorkItem.mk "s" 3)
    bodyW (by decide) (by decide) (by decide)
  refine ⟨by decide, ?_, h.2 pgW (fun _ => true) [] "l2" (by decide)⟩
  rw [h.1]
  decide

/-- Unfolding trueCount over one recorded claim. -/
theorem trueCount_cons (u : String) (p : String × Bool)
    (rs : List (String × Bool)) :
    trueCount u (p :: rs) =
      (if p.1 = u ∧ p.2 = true then 1 else 0) + trueCount u rs := by
  unfold trueCount
  by_cases h : p.1 = u ∧ p.2 = true
  · rw [if_pos h, List.filter_cons_of_pos (by simpa using h)]
    simp [Nat.add_comm]
  · rw [if_neg h, List.filter_cons_of_neg (by simpa using h)]
    simp

/-- Counting lemma for tryClaim sequences: a URL already present yields no
true outcome, and otherwise exactly one true outcome iff it occurs. -/
theorem trueCount_claimResults (calls : List String) :
    ∀ (v : List String) (u : String),
      trueCount u (claimResults v calls) =
        if u ∈ v then 0 else if u ∈ calls then 1 else 0 := by
  induction calls with
  | nil =>
      intro v u
      simp [claimResults, trueCount]
  | cons u0 rest ih =>
      intro v u
      by_cases h0 : u0 ∈ v
      · have hc : tryClaim v u0 = (false, v) := by simp [tryClaim, h0]
        rw [show claimResults v (u0 :: rest)
            = (u0, (tryClaim v u0).1) :: claimResults (tryClaim v u0).2 rest
          from rfl, hc, trueCount_cons, ih v u]
        by_cases hu : u ∈ v
        · simp [hu]
        · have hne : u ≠ u0 := fun he => hu (he ▸ h0)
          simp [hu, List.mem_cons, hne]
      · have hc : tryClaim v u0 = (true, u0 :: v) := by simp [tryClaim, h0]
        rw [show claimResults v (u0 :: rest)
            = (u0, (tryClaim v u0).1) :: claimResults (tryClaim v u0).2 rest
          from rfl, hc, trueCount_cons, ih (u0 :: v) u]
        by_cases he : u0 = u
        · subst he
          simp [List.mem_cons, h0]
        · have hne2 : ¬ u = u0 := fun h => he h.symm
          by_cases hu : u ∈ v
          · simp [hu, List.mem_cons, he, hne2]
          · simp [hu, List.mem_cons, he, hne2]

/-- Claim C2.  tryClaim succeeds exactly when the URL is absent, inserts it,
removes nothing (the set only grows), and over any serialized sequence of
claims it returns true at most once per URL — exactly once from a fresh
crawl when the URL is claimed at all. -/
theorem tryClaim_exactly_once :
    (∀ (v : List String) (u : String),
        ((tryClaim v u).1 = true ↔ u ∉ v) ∧
        u ∈ (tryClaim v u).2 ∧
        v ⊆ (tryClaim v u).2) ∧
    (∀ (v calls : List String) (u : String),
        trueCount u (claimResults v calls) ≤ 1) ∧
    (∀ (calls : List String) (u : String), u ∈ calls →
        trueCount u (claimResults [] calls) = 1) := by
  refine ⟨fun v u => ?_, fun v calls u => ?_, fun calls u h => ?_⟩
  · unfold tryClaim
    by_cases h : u ∈ v
    · simp [h]
    · simp [h, List.subset_cons_self]
  · rw [trueCount_claimResults calls v u]
    split_ifs <;> simp
  · rw [trueCount_claimResults calls [] u]
    simp [h]

theorem tryClaim_exactly_once_witness :
    ("u" ∈ ["u", "w", "u"]) ∧
      trueCount "u" (claimResults [] ["u", "w", "u"]) = 1 :=
  ⟨by decide, tryClaim_exactly_once.2.2 ["u", "w", "u"] "u" (by decide)⟩

/-- Per-event characterization of parseHTML: the collected links and images
are the concatenation, in document order, of the per-token contributions of
the events before the first ErrorToken. -/
theorem parseHTML_characterization (evs : List TEvent) :
    parseHTML evs =
      (((beforeErr evs).map linksOf).flatten,
       ((beforeErr evs).map imagesOf).flatten) := by
  induction evs with
  | nil => simp [parseHTML, beforeErr]
  | cons e rest ih =>
      cases e with
      | err => simp [parseHTML, beforeErr]
      | tok t =>
          have hb : beforeErr (TEvent.tok t :: rest)
              = TEvent.tok t :: beforeErr rest := by
            simp [beforeErr]
          by_cases h1 : tagLike t.kind = true
          · by_cases h2 : t.data = "a"
            · simp [parseHTML, hb, linksOf, imagesOf, h1, h2, ih]
            · by_cases h3 : t.data = "img"
              · simp [parseHTML, hb, linksOf, imagesOf, h1, h2, h3, ih]
              · simp [parseHTML, hb, linksOf, imagesOf, h1, h2, h3, ih]
          · simp [parseHTML, hb, linksOf, imagesOf, h1, ih]

/-- Claim C5.  The image classifier accepts exactly the strings that end in
one of .jpg .jpeg .png .gif .bmp (case-sensitively, anchored at the end),
which is precisely the semantics of the end-anchored regexp match made by
the source;
and extraction emits an img src value exactly when the classifier accepts
it (imagesOf keeps, per img tag, the src values passing isImageURL). -/
theorem image_classifier_correct :
    (∀ s : String,
        ((isImageURL s = true) ↔ goMatchString s) ∧
        ((isImageURL s = true) ↔
          ∃ w ∈ imgSuffixWords, List.IsSuffix ('.' :: w) s.data)) ∧
    (∀ evs : List TEvent,
        (parseHTML evs).2 = ((beforeErr evs).map imagesOf).flatten) := by
  constructor
  · intro s
    have hsuf : (isImageURL s = true) ↔
        ∃ w ∈ imgSuffixWords, List.IsSuffix ('.' :: w) s.data := by
      unfold isImageURL
      rw [List.any_eq_true]
      constructor
      · rintro ⟨w, hw, hb⟩
        exact ⟨w, hw, List.isSuffixOf_iff_suffix.mp hb⟩
      · rintro ⟨w, hw, hb⟩
        exact ⟨w, hw, List.isSuffixOf_iff_suffix.mpr hb⟩
    refine ⟨hsuf.trans ?_, hsuf⟩
    unfold goMatchString regexCore
    constructor
    · rintro ⟨w, hw, t, ht⟩
      exact ⟨t, '.' :: w, ht.symm, w, hw, rfl⟩
    · rintro ⟨a, b, hab, w, hw, hbw⟩
      exact ⟨w, hw, a, by rw [← hbw, ← hab]⟩
  · intro evs
    rw [parseHTML_characterization evs]

theorem image_classifier_correct_witness :
    (isImageURL "http://x/a.png" = true) ∧ goMatchString "http://x/a.png" :=
  ⟨by decide,
   (image_classifier_correct.1 "http://x/a.png").1.mp (by decide)⟩

/-- Claim C6.  Extraction emits every href value of every a-tag verbatim in
document order, and stops at the first tokenizer error, returning exactly
what an error-free run over the preceding events would return. -/
theorem links_extraction_correct :
    (∀ evs : List TEvent,
        (parseHTML evs).1 = ((beforeErr evs).map linksOf).flatten) ∧
    (∀ (pre post : List TEvent), TEvent.err ∉ pre →
        parseHTML (pre ++ TEvent.err :: post) = parseHTML pre) := by
  constructor
  · intro evs
    rw [parseHTML_characterization evs]
  · intro pre post hpre
    induction pre with
    | nil => simp [parseHTML]
    | cons e pre' ih =>
        have he : e ≠ TEvent.err := fun h => hpre (h ▸ List.mem_cons_self e pre')
        have hpre' : TEvent.err ∉ pre' := fun h => hpre (List.mem_cons_of_mem e h)
        cases e with
        | err => exact absurd rfl he
        | tok t =>
            simp only [List.cons_append, parseHTML, List.append_eq, ih hpre']

theorem links_extraction_correct_witness :
    parseHTML
        ([TEvent.tok (Tok.mk TokKind.startTag "a" [("href", "x")])] ++
          TEvent.err ::
            [TEvent.tok (Tok.mk TokKind.startTag "a" [("href", "y")])]) =
      (["x"], []) := by
  rw [links_extraction_correct.2
    [TEvent.tok (Tok.mk TokKind.startTag "a" [("href", "x")])]
    [TEvent.tok (Tok.mk TokKind.startTag "a" [("href", "y")])] (by decide)]
  decide

/-- Writing the same name twice keeps only the last content. -/
theorem setFile_setFile (f : List (String × List Nat)) (n : String)
    (c1 c2 : List Nat) : setFile (setFile f n c1) n c2 = setFile f n c2 := by
  induction f with
  | nil => simp [setFile]
  | cons p rest ih =>
      by_cases h : p.1 = n
      · simp [setFile, h]
      · simp [setFile, h, ih]

/-- A written file is found with exactly the written content. -/
theorem lookupFile_setFile (f : List (String × List Nat)) (n : String)
    (c : List Nat) : lookupFile (setFile f n c) n = some c := by
  induction f with
  | nil => simp [setFile, lookupFile]
  | cons p rest ih =>
      by_cases h : p.1 = n
      · simp [setFile, lookupFile, h]
      · simp [setFile, lookupFile, h, ih]

/-- Common evaluation of downloadImage on the path past fetch, mkdir and
create, as a function of the copy outcome. -/
theorem downloadImage_eval (o : DlOracle) (fs : FS) (url : String)
    (body : List Nat) (h1 : o.fetch url = some body) (h2 : o.mkdirOk = true)
    (h3 : o.createOk = true) :
    downloadImage o fs url =
      match o.copyFail with
      | some k =>
        (Except.error DlErr.copyFailed,
         FS.mk (ensureDir fs.dirs DownloadDir)
           (setFile fs.files (joinPath DownloadDir (getFilenameFromURL url))
             (body.take k)))
      | none =>
        (Except.ok (),
         FS.mk (ensureDir fs.dirs DownloadDir)
           (setFile fs.files (joinPath DownloadDir (getFilenameFromURL url))
             body)) := by
  unfold downloadImage
  rw [h1, h2, h3]
  cases o.copyFail <;> simp [setFile_setFile]

/-- Claim C7.  A fully successful download ensures the output directory,
then stores the fetched bytes unmodified under the final path segment of
the URL inside that directory, replacing any existing file of that name;
looking the file up afterwards returns exactly the fetched bytes. -/
theorem download_roundtrip (o : DlOracle) (fs : FS) (url : String)
    (body : List Nat) (h1 : o.fetch url = some body) (h2 : o.mkdirOk = true)
    (h3 : o.createOk = true) (h4 : o.copyFail = none) :
    downloadImage o fs url =
      (Except.ok (),
       FS.mk (ensureDir fs.dirs DownloadDir)
         (setFile fs.files (joinPath DownloadDir (getFilenameFromURL url))
           body)) ∧
    lookupFile (downloadImage o fs url).2.files
        (joinPath DownloadDir (getFilenameFromURL url)) = some body := by
  have he := downloadImage_eval o fs url body h1 h2 h3
  rw [h4] at he
  exact ⟨he, by rw [he]; exact lookupFile_setFile fs.files _ body⟩

theorem download_roundtrip_witness :
    downloadImage (DlOracle.mk (fun _ => some [7, 8]) true true none)
        (FS.mk [] [("images/a.png", [1])]) "http://x/a.png" =
      (Except.ok (), FS.mk ["images"] [("images/a.png", [7, 8])]) := by
  rw [(download_roundtrip (DlOracle.mk (fun _ => some [7, 8]) true true none)
    (FS.mk [] [("images/a.png", [1])]) "http://x/a.png" [7, 8]
    rfl rfl rfl rfl).1]
  exact congrArg (fun z => ((Except.ok () : Except DlErr Unit), z)) (by decide)

/-- Claim C10.  When the copy step fails, downloadImage reports an error but
the destination file has already been created and truncated, so the
filesystem now holds the partial prefix that was copied — destroying any
previous content under that name. -/
theorem download_copy_failure_truncates (o : DlOracle) (fs : FS) (url : String)
    (body : List Nat) (k : Nat) (h1 : o.fetch url = some body)
    (h2 : o.mkdirOk = true) (h3 : o.createOk = true)
    (h4 : o.copyFail = some k) :
    downloadImage o fs url =
      (Except.error DlErr.copyFailed,
       FS.mk (ensureDir fs.dirs DownloadDir)
         (setFile fs.files (joinPath DownloadDir (getFilenameFromURL url))
           (body.take k))) ∧
    lookupFile (downloadImage o fs url).2.files
        (joinPath DownloadDir (getFilenameFromURL url))
      = some (body.take k) := by
  have he := downloadImage_eval o fs url body h1 h2 h3
  rw [h4] at he
  exact ⟨he, by rw [he]; exact lookupFile_setFile fs.files _ (body.take k)⟩

theorem download_copy_failure_truncates_witness :
    lookupFile [("images/a.png", [1, 2, 3])] "images/a.png" = some [1, 2, 3] ∧
    downloadImage (DlOracle.mk (fun _ => some [9, 9]) true true (some 1))
        (FS.mk ["images"] [("images/a.png", [1, 2, 3])]) "http://x/a.png" =
      (Except.error DlErr.copyFailed,
       FS.mk ["images"] [("images/a.png", [9])]) := by
  refine ⟨by decide, ?_⟩
  rw [(download_copy_failure_truncates
    (DlOracle.mk (fun _ => some [9, 9]) true true (some 1))
    (FS.mk ["images"] [("images/a.png", [1, 2, 3])]) "http://x/a.png"
    [9, 9] 1 rfl rfl rfl rfl).1]
  exact congrArg
    (fun z => ((Except.error DlErr.copyFailed : Except DlErr Unit), z))
    (by decide)

/-- Claim C8.  Errors are local and terminal to one work item: the worker
loop yields a result for every consumed item whatever the oracles do, a
fetch error is logged and drops only its own item while the loop goes on
with the untouched remainder, and download failures change neither the set
of attempted downloads, nor the pushed links, nor the visited set. -/
theorem errors_local_terminal (page : String → Option (List TEvent))
    (dlOk : String → Bool) :
    (∀ (v : List String) (items : List WorkItem),
        (runWorker page dlOk v items).length = items.length) ∧
    (∀ (v : List String) (it : WorkItem) (rest : List WorkItem),
        ¬ it.depth > MaxDepth → it.url ∉ v → page it.url = none →
          runWorker page dlOk v (it :: rest) =
            ⟨it.url :: v, [], true, true, true, [], []⟩ ::
              runWorker page dlOk (it.url :: v) rest) ∧
    (∀ (dlOk2 : String → Bool) (v : List String) (it : WorkItem),
        (handleItem page dlOk v it).pushes
            = (handleItem page dlOk2 v it).pushes ∧
          (handleItem page dlOk v it).downloads
              = (handleItem page dlOk2 v it).downloads ∧
            (handleItem page dlOk v it).visited
                = (handleItem page dlOk2 v it).visited) := by
  refine ⟨?_, ?_, ?_⟩
  · intro v items
    induction items generalizing v with
    | nil => simp [runWorker]
    | cons it rest ih => simp [runWorker, ih]
  · intro v it rest h hv hp
    simp [runWorker, handleItem_fetchErr page dlOk v it h hv hp]
  · intro dlOk2 v it
    by_cases h : it.depth > MaxDepth
    · rw [handleItem_overdepth page dlOk v it h,
        handleItem_overdepth page dlOk2 v it h]
      exact ⟨rfl, rfl, rfl⟩
    · by_cases hv : it.url ∈ v
      · rw [handleItem_dup page dlOk v it h hv,
          handleItem_dup page dlOk2 v it h hv]
        exact ⟨rfl, rfl, rfl⟩
      · cases hp : page it.url with
        | none =>
            rw [handleItem_fetchErr page dlOk v it h hv hp,
              handleItem_fetchErr page dlOk2 v it h hv hp]
            exact ⟨rfl, rfl, rfl⟩
        | some body =>
            rw [handleItem_processed page dlOk v it body h hv hp,
              handleItem_processed page dlOk2 v it body h hv hp]
            exact ⟨rfl, rfl, rfl⟩

theorem errors_local_terminal_witness :
    runWorker (fun _ => none) (fun _ => true) [] [WorkItem.mk "a" 1] =
      [⟨["a"], [], true, true, true, [], []⟩] := by
  rw [(errors_local_terminal (fun _ => none) (fun _ => true)).2.1 []
    (WorkItem.mk "a" 1) [] (by decide) (by decide) rfl]
  rfl

/-- Claim C9.  Image dispatch is neither depth-bounded nor deduplicated:
every image extracted from a page processed at depth up to and including
MaxDepth is handed to the downloader, whatever the visited set contains,
and the same image discovered on two different pages is downloaded once
per discovery. -/
theorem images_per_discovery (page : String → Option (List TEvent))
    (dlOk : String → Bool) :
    (∀ (v : List String) (it : WorkItem) (body : List TEvent),
        ¬ it.depth > MaxDepth → it.url ∉ v → page it.url = some body →
          (handleItem page dlOk v it).downloads = (parseHTML body).2) ∧
    (∀ (it1 it2 : WorkItem) (b1 b2 : List TEvent),
        ¬ it1.depth > MaxDepth → ¬ it2.depth > MaxDepth →
        it2.url ≠ it1.url →
        page it1.url = some b1 → page it2.url = some b2 →
          downloadsOf (runWorker page dlOk [] [it1, it2]) =
            (parseHTML b1).2 ++ (parseHTML b2).2) := by
  constructor
  · intro v it body h hv hp
    rw [handleItem_processed page dlOk v it body h hv hp]
  · intro it1 it2 b1 b2 h1 h2 hne hp1 hp2
    have hv2 : it2.url ∉ [it1.url] := by simp [hne]
    simp [runWorker, downloadsOf,
      handleItem_processed page dlOk [] it1 b1 h1 (by simp) hp1,
      handleItem_processed page dlOk [it1.url] it2 b2 h2 hv2 hp2]

theorem images_per_discovery_witness :
    ((WorkItem.mk "p" 3).depth = MaxDepth) ∧
      downloadsOf (runWorker pgI (fun _ => true) []
          [WorkItem.mk "p" 3, WorkItem.mk "q" 3]) =
        ["i.png", "i.png"] := by
  refine ⟨by decide, ?_⟩
  rw [(images_per_discovery pgI (fun _ => true)).2 (WorkItem.mk "p" 3)
    (WorkItem.mk "q" 3) bodyI bodyI (by decide) (by decide) (by decide)
    (by decide) (by decide)]
  decide

end ImageCrawler
